import Mathlib

/-!
Verification of the TradingView-to-Binance signal pipeline
(`api/trading.py`).  Python numbers (floats and `Decimal` values) are
embedded as `ℚ`; Python strings are embedded as `String` / `List Char`.
`Decimal` arithmetic on the values arising here is exact, `Decimal`
floor-division (`//`) truncates toward zero, and Python `round` rounds
half-to-even; the helpers below reproduce those semantics.
-/

/-- Truncation toward zero of a rational, the semantics of Python's
`Decimal.__floordiv__` quotient (`q // s` is `trunc (q / s)`). -/
def pyTrunc (x : ℚ) : ℤ := if x < 0 then -⌊-x⌋ else ⌊x⌋

/-- Python's `round` (and `Decimal` fixed-point formatting): round to the
nearest integer, ties to the even integer. -/
def pyRound (x : ℚ) : ℤ :=
  let f := ⌊x⌋
  let r := x - f
  if r < 1/2 then f
  else if 1/2 < r then f + 1
  else if f % 2 = 0 then f else f + 1

/-- A decimal number as Python's `Decimal` stores it: a coefficient and a
power-of-ten exponent.  `Decimal("0.001")` is `⟨1, -3⟩`. -/
structure Dec where
  coeff : ℤ
  exp : ℤ
deriving DecidableEq

/-- The rational value of a `Dec`. -/
def Dec.toRat (d : Dec) : ℚ :=
  if 0 ≤ d.exp then (d.coeff : ℚ) * 10 ^ d.exp.toNat
  else (d.coeff : ℚ) / 10 ^ (-d.exp).toNat

/-- `max(0, -step_size_decimal.as_tuple().exponent)`: the number of decimal
places of a step size. -/
def decimalPlaces (d : Dec) : ℕ := (max 0 (-d.exp)).toNat

/-- Decimal digits of a natural number, most significant first
(fuel-driven so that it reduces in the kernel). -/
def natDigitsGo : ℕ → ℕ → List Char → List Char
  | 0, _, acc => acc
  | fuel + 1, n, acc =>
    if n = 0 then acc
    else natDigitsGo fuel (n / 10) (Char.ofNat (48 + n % 10) :: acc)

/-- Decimal digit string of a natural number. -/
def natDigits (n : ℕ) : List Char :=
  if n = 0 then ['0'] else natDigitsGo n n []

/-- The characters printed by Python's fixed-point format `f"{x:.{d}f}"`
(rounding half-to-even, exactly `d` fractional digits). -/
def formatFixed (x : ℚ) (d : ℕ) : List Char :=
  let n : ℤ := pyRound (x * 10 ^ d)
  let m : ℕ := n.natAbs
  let ip := m / 10 ^ d
  let fp := m % 10 ^ d
  let sign : List Char := if n < 0 then ['-'] else []
  if d = 0 then sign ++ natDigits ip
  else
    sign ++ natDigits ip ++
      '.' :: (List.replicate (d - (natDigits fp).length) '0' ++ natDigits fp)

/-- Split a character list at the first occurrence of `sep`
(Python's `s.split(sep, 1)`); `none` when `sep` does not occur. -/
def splitOnce (sep : Char) : List Char → Option (List Char × List Char)
  | [] => none
  | c :: cs =>
    if c = sep then some ([], cs)
    else (splitOnce sep cs).map (fun p => (c :: p.1, p.2))

/-- Number of characters after the first `.` of a rendered number
(`0` when there is no decimal point). -/
def decimalsOfL (l : List Char) : ℕ :=
  match splitOnce '.' l with
  | some p => p.2.length
  | none => 0

/-- Number of decimal places of a rendered quantity string. -/
def decimalsOfStr (s : String) : ℕ := decimalsOfL s.data

/-- Value of a non-empty all-digit character list. -/
def digitsVal (l : List Char) : Option ℕ :=
  if l ≠ [] ∧ l.all Char.isDigit then
    some (l.foldl (fun a c => 10 * a + (c.toNat - 48)) 0)
  else none

/-- Parse a step-size string such as `"0.001"`, `"1"` or `"1000"` into the
`Decimal` it denotes (`Decimal(step_size)` in the source). -/
def parseDecimal (s : String) : Option Dec :=
  match splitOnce '.' s.data with
  | none => (digitsVal s.data).map (fun n : ℕ => (⟨(n : ℤ), 0⟩ : Dec))
  | some p =>
    match digitsVal p.1, digitsVal p.2 with
    | some a, some b => some ⟨(a * 10 ^ p.2.length + b : ℕ), -(p.2.length : ℤ)⟩
    | _, _ => none

/-- Python's `str.strip()`: drop whitespace from both ends. -/
def pyStrip (l : List Char) : List Char :=
  ((l.dropWhile Char.isWhitespace).reverse.dropWhile Char.isWhitespace).reverse

/-- Python's `str.upper()` on the basic latin range. -/
def pyUpper (l : List Char) : List Char := l.map Char.toUpper

/-- Python's `str.lower()` on the basic latin range. -/
def pyLower (l : List Char) : List Char := l.map Char.toLower

/-- `str.strip()` lifted to `String`. -/
def pyStripStr (s : String) : String := String.mk (pyStrip s.data)

/-- `str.lower()` lifted to `String`. -/
def pyLowerStr (s : String) : String := String.mk (pyLower s.data)

/-- Python's `s.replace(pat, "")`: delete every occurrence of `pat`,
scanning left to right (fuel-driven for kernel reduction). -/
def removeAllGo (pat : List Char) : ℕ → List Char → List Char
  | _, [] => []
  | 0, l => l
  | fuel + 1, c :: cs =>
    if pat ≠ [] ∧ pat.isPrefixOf (c :: cs) then
      removeAllGo pat fuel ((c :: cs).drop pat.length)
    else c :: removeAllGo pat fuel cs

/-- Delete every occurrence of `pat` from `l`. -/
def removeAll (pat l : List Char) : List Char := removeAllGo pat l.length l

/-- The quote-currency suffixes tried by `_normalise_symbol`, in source
order. -/
def quoteSuffixes : List (List Char) :=
  ["USDT".data, "USD".data, "PERP".data, "USDC".data]

/-- Does the cleaned symbol still end with a quote-currency suffix? -/
def endsWithQuoteSuffix (l : List Char) : Bool :=
  "USDT".data.isSuffixOf l || "USD".data.isSuffixOf l ||
    "PERP".data.isSuffixOf l || "USDC".data.isSuffixOf l

/-- The suffix-stripping loop of `_normalise_symbol`: chop the first
matching quote suffix, first match wins. -/
def removeQuoteSuffix (l : List Char) : List Char :=
  if "USDT".data.isSuffixOf l then l.take (l.length - 4)
  else if "USD".data.isSuffixOf l then l.take (l.length - 3)
  else if "PERP".data.isSuffixOf l then l.take (l.length - 4)
  else if "USDC".data.isSuffixOf l then l.take (l.length - 4)
  else l

/-- Body of `_normalise_symbol` on a non-empty character list: strip and
upper-case, drop an exchange-qualified head (text up to a colon), drop a
contract suffix (text from a dot), delete underscores, chop one quote
suffix, and keep only alphabetic characters. -/
def normaliseSymbolCore (l : List Char) : List Char :=
  let cleaned := pyUpper (pyStrip l)
  let cleaned :=
    match splitOnce ':' cleaned with
    | some p => p.2
    | none => cleaned
  let cleaned :=
    match splitOnce '.' cleaned with
    | some p => p.1
    | none => cleaned
  let cleaned := cleaned.filter (· ≠ '_')
  let cleaned := removeQuoteSuffix cleaned
  cleaned.filter Char.isAlpha

/-- `_normalise_symbol(symbol)`: `None` and the empty string normalise to
`""` (the Python falsiness check). -/
def normalise_symbol (symbol : Option String) : String :=
  match symbol with
  | none => ""
  | some s => if s.data = [] then "" else String.mk (normaliseSymbolCore s.data)

/-- The hardcoded `symbol_step_sizes` table of
`_apply_quantity_precision`. -/
def symbol_step_sizes : List (String × String) :=
  [("BTCUSDT", "0.001"), ("BTCUSD", "0.001"), ("BTCBUSD", "0.001"),
   ("BTCFDUSD", "0.001"),
   ("ETHUSDT", "0.0001"), ("ETHUSD", "0.0001"), ("ETHBUSD", "0.0001"),
   ("ETHBTC", "0.00001"),
   ("ADAUSDT", "1"), ("BNBUSDT", "0.001"), ("SOLUSDT", "0.001"),
   ("XRPUSDT", "0.1"), ("DOGEUSDT", "1"), ("AVAXUSDT", "0.01"),
   ("LINKUSDT", "0.01"), ("DOTUSDT", "0.01"), ("UNIUSDT", "0.01"),
   ("LTCUSDT", "0.001"), ("BCHUSDT", "0.001"), ("FILUSDT", "0.01"),
   ("TRXUSDT", "1"), ("EOSUSDT", "0.1"), ("XLMUSDT", "1"),
   ("XMRUSDT", "0.001"), ("ETCUSDT", "0.01"), ("VETUSDT", "1"),
   ("ICPUSDT", "0.01"), ("FTMUSDT", "1"), ("HBARUSDT", "1"),
   ("NEARUSDT", "0.01"), ("ATOMUSDT", "0.01"), ("ALGOUSDT", "1"),
   ("MATICUSDT", "1"), ("SANDUSDT", "1"), ("MANAUSDT", "1"),
   ("1000PEPEUSDT", "1000"), ("1000SHIBUSDT", "1000"),
   ("1000FLOKIUSDT", "1000")]

/-- Step-size resolution of `_apply_quantity_precision`: upper-case the
symbol, delete `".P"`, look the result up in the static table, and fall
back to the dynamically fetched step (`_get_dynamic_step_size`, which
itself defaults to `"0.001"` on any failure). -/
def get_step_size (symbol : String) (dynamicStep : Option String) : String :=
  let symbol_for_precision := String.mk (removeAll ".P".data (pyUpper symbol.data))
  match symbol_step_sizes.lookup symbol_for_precision with
  | some s => s
  | none => dynamicStep.getD "0.001"

/-- The stored preference record as `_load_preference_data` returns it. -/
structure Preference where
  product : Option String
  strategy : Option String
  direction_mode : Option String
  leverage : Option ℚ
  capital_allocation_percent : Option ℚ
deriving DecidableEq

/-- An inbound webhook alert.  String fields are `none` when absent;
numeric fields are `none` when absent or not parseable as a float.
`nonempty` models Python's `bool(data)` on the JSON dictionary. -/
structure SignalData where
  action : Option String
  symbol : Option String
  quantity : Option ℚ
  price : Option ℚ
  strategy : Option String
  time : Option String
  nonempty : Bool
deriving DecidableEq

/-- External-world outcomes an `execute_trade` call can observe: whether
the client is configured, whether the leverage-set call raises (and with
what message), the balance and ticker lookups, the dynamically fetched
step size, and whether the order-submit call raises. -/
structure Env where
  clientConfigured : Bool
  leverageFail : Option String
  availableBalance : Option ℚ
  tickerPrice : Option ℚ
  dynamicStep : Option String
  orderFail : Option String
deriving DecidableEq

/-- Result of `execute_trade`: either an error dictionary or a submitted
market order (symbol, side, string quantity, applied leverage, applied
capital percent). -/
inductive TradeResult where
  | errorRes (msg : String)
  | orderSubmitted (symbol side quantityStr : String)
      (applied_leverage : Option ℤ) (percent : Option ℚ)
deriving DecidableEq

/-- Outcome of `_apply_leverage`: `{}` (nothing requested), an applied
leverage, or a failed leverage-set call. -/
inductive LeverageOutcome where
  | noSet
  | set (lev : ℤ)
  | failed (msg : String)
deriving DecidableEq

/-- The leverage an outcome reports (`leverage_result.get("applied_leverage")`). -/
def LeverageOutcome.applied : LeverageOutcome → Option ℤ
  | .set l => some l
  | _ => none

/-- `_apply_leverage`: no-op when no leverage is configured or it is zero;
otherwise clamp the rounded value to `[1, 125]` and issue the
leverage-set call, converting an exchange exception into an error. -/
def apply_leverage (leverage : Option ℚ) (callFails : Option String) :
    LeverageOutcome :=
  match leverage with
  | none => .noSet
  | some x =>
    if x = 0 then .noSet
    else
      let lev := max 1 (min 125 (pyRound x))
      match callFails with
      | some e => .failed ("Failed to set leverage: " ++ e)
      | none => .set lev

/-- `_validate_signal_data`: lower-case the action, strip a `BINANCE:`
prefix and a `.P` contract suffix from the symbol, and take the absolute
value of the quantity (a missing or unparseable quantity is an error). -/
def validate_signal_data (signal : SignalData) :
    Except String (String × String × ℚ) :=
  match signal.action with
  | none => .error "Missing action"
  | some a =>
    if a.data = [] then .error "Missing action"
    else
      let action := pyLowerStr a
      let symbol_raw := signal.symbol.getD ""
      let symbol0 := removeAll "BINANCE:".data symbol_raw.data
      let symbol :=
        if ".P".data.isSuffixOf symbol0 then symbol0.take (symbol0.length - 2)
        else symbol0
      match signal.quantity with
      | none => .error "Invalid quantity"
      | some q => .ok (action, String.mk symbol, |q|)

/-- The numeric and formatting core of `_apply_quantity_precision`, for an
already-resolved step size: floor the quantity to a step multiple
(`Decimal` floor-division truncates toward zero), fail when the result is
not positive, and render it with exactly the step's decimal places. -/
def applyQuantityPrecisionNum (quantity : ℚ) (step : Dec) :
    Option (ℚ × String) :=
  let s := step.toRat
  let applied := (pyTrunc (quantity / s) : ℚ) * s
  if applied ≤ 0 then none
  else some (applied, String.mk (formatFixed applied (decimalPlaces step)))

/-- `_apply_quantity_precision(quantity, symbol)`: resolve the step size,
parse it as a `Decimal` (an unparseable step would raise and surface via
the broad exception handler of `execute_trade`), floor and render.  The
`≤ 0` case is the `"Calculated quantity is zero"` error. -/
def apply_quantity_precision (quantity : ℚ) (symbol : String)
    (dynamicStep : Option String) : Except String (ℚ × String) :=
  match parseDecimal (get_step_size symbol dynamicStep) with
  | none => .error "Trade execution error"
  | some step =>
    match applyQuantityPrecisionNum quantity step with
    | none => .error "Calculated quantity is zero"
    | some r => .ok r

/-- `_calculate_quantity_from_capital`: with a balance and a non-zero
price, size from capital (falling back to `base × percent/100` when the
computed size is not positive); otherwise use the fallback. -/
def calculate_quantity_from_capital (env : Env) (percent_value base_quantity : ℚ)
    (price_for_sizing : Option ℚ) : ℚ :=
  let price :=
    match price_for_sizing with
    | none => env.tickerPrice
    | some p => some p
  match env.availableBalance, price with
  | some b, some p =>
    if p ≠ 0 then
      let computed := b * (percent_value / 100) / p
      if 0 < computed then computed else base_quantity * (percent_value / 100)
    else base_quantity * (percent_value / 100)
  | _, _ => base_quantity * (percent_value / 100)

/-- The raw-quantity selection of `_calculate_quantity` (before precision
normalization): resolve the sizing price (caller price, else the alert's
own truthy price hint), clamp the configured percent at zero, and when a
positive percent is set take the larger of the alert quantity and the
capital-derived quantity.  Returns the raw quantity and the percent. -/
def calculate_quantity_raw (env : Env) (base_quantity : ℚ)
    (capital_percent : Option ℚ) (reference_price signalPrice : Option ℚ) :
    ℚ × Option ℚ :=
  let price_for_sizing : Option ℚ :=
    match reference_price with
    | some p => some p
    | none =>
      match signalPrice with
      | some ph => if ph = 0 then none else some ph
      | none => none
  let percent_value : Option ℚ := capital_percent.map (fun c => max 0 c)
  match percent_value with
  | some pv =>
    if 0 < pv then
      (max base_quantity
        (calculate_quantity_from_capital env pv base_quantity price_for_sizing),
       some pv)
    else (base_quantity, some pv)
  | none => (base_quantity, none)

/-- `_calculate_quantity`: raw selection followed by precision
normalization; returns the normalized quantity and the percent. -/
def calculate_quantity (env : Env) (base_quantity : ℚ)
    (capital_percent : Option ℚ) (reference_price signalPrice : Option ℚ)
    (symbol : String) : Except String (ℚ × Option ℚ) :=
  let raw := calculate_quantity_raw env base_quantity capital_percent
    reference_price signalPrice
  match apply_quantity_precision raw.1 symbol env.dynamicStep with
  | .error e => .error e
  | .ok r => .ok (r.1, raw.2)

/-- `_execute_order`: re-normalize the quantity, submit a market order
with the rendered string quantity, and convert an exchange exception into
the `"Binance API error"` result of `execute_trade`. -/
def execute_order (env : Env) (symbol action : String) (quantity : ℚ)
    (applied_leverage : Option ℤ) (percent_value : Option ℚ) : TradeResult :=
  let side := if action = "buy" then "BUY" else "SELL"
  match apply_quantity_precision quantity symbol env.dynamicStep with
  | .error e => .errorRes e
  | .ok r =>
    match env.orderFail with
    | some e => .errorRes ("Binance API error: " ++ e)
    | none => .orderSubmitted symbol side r.2 applied_leverage percent_value

/-- `execute_trade`: validate the signal, set leverage (a failed
leverage-set call aborts the request), size and normalize the quantity,
and submit the order. -/
def execute_trade (env : Env) (signal : SignalData)
    (preference : Option Preference) (reference_price : Option ℚ) :
    TradeResult :=
  if env.clientConfigured = false then .errorRes "Binance client not initialized"
  else
    match validate_signal_data signal with
    | .error e => .errorRes e
    | .ok (action, symbol, base_quantity) =>
      match apply_leverage (preference.bind Preference.leverage)
          env.leverageFail with
      | .failed e => .errorRes e
      | lr =>
        match calculate_quantity env base_quantity
            (preference.bind Preference.capital_allocation_percent)
            reference_price signal.price symbol with
        | .error e => .errorRes e
        | .ok (applied_quantity, percent_value) =>
          execute_order env symbol action applied_quantity lr.applied
            percent_value

/-- `_strategy_allows_execution`: returns
(allowed, reason, loaded preference).  A preference-load error denies with
the load error; a blank selected strategy denies with
`"No strategy selected in control panel"`; a blank signal strategy denies
with `"Signal missing strategy value"`; a case-insensitive mismatch
denies with a message carrying both values. -/
def strategy_allows_execution (loadResult : Except String Preference)
    (signal_strategy : Option String) :
    Bool × Option String × Option Preference :=
  match loadResult with
  | .error e => (false, some e, none)
  | .ok pref =>
    let selected := pyStripStr (pref.strategy.getD "")
    let incoming := pyStripStr (signal_strategy.getD "")
    if selected.data = [] then
      (false, some "No strategy selected in control panel", some pref)
    else if incoming.data = [] then
      (false, some "Signal missing strategy value", some pref)
    else if pyLowerStr incoming ≠ pyLowerStr selected then
      (false,
       some ("Strategy mismatch (selected " ++ selected ++ ", signal "
         ++ incoming ++ ")"),
       some pref)
    else (true, none, some pref)

/-- `_direction_allows_action`: no preference allows everything; an unset
or `allow_long_short` mode allows everything; a restrictive mode demands
a truthy action of the matching side. -/
def direction_allows_action (action : Option String)
    (preference : Option Preference) : Bool × Option String :=
  match preference with
  | none => (true, none)
  | some pref =>
    let direction_mode := pyLowerStr (pref.direction_mode.getD "")
    if direction_mode.data = [] ∨ direction_mode = "allow_long_short" then
      (true, none)
    else
      match action with
      | none => (false, some "Signal missing action value")
      | some a =>
        if a.data = [] then (false, some "Signal missing action value")
        else
          let action_value := pyLowerStr a
          if direction_mode = "allow_long_only" ∧ action_value ≠ "buy" then
            (false, some "Blocked short signal: long-only mode enabled")
          else if direction_mode = "allow_short_only" ∧ action_value ≠ "sell" then
            (false, some "Blocked long signal: short-only mode enabled")
          else (true, none)

/-- `_product_allows_symbol`: an unset product allows everything;
otherwise the normalized symbol must match the product
case-insensitively. -/
def product_allows_symbol (symbol : Option String)
    (preference : Option Preference) : Bool × Option String :=
  match preference with
  | none => (true, none)
  | some pref =>
    let selected := pyStripStr (pref.product.getD "")
    if selected.data = [] then (true, none)
    else
      let incoming_base := normalise_symbol symbol
      if incoming_base.data = [] then
        (false, some "Signal missing tradable symbol")
      else if pyLowerStr incoming_base ≠ pyLowerStr selected then
        (false,
         some ("Product mismatch (selected " ++ selected ++ ", signal "
           ++ incoming_base ++ ")"))
      else (true, none)

/-- Result record of `_validate_signal_permissions`. -/
structure ValidationOutput where
  allow_execution : Bool
  ignore_message : Option String
  preference : Option Preference
  clean_price : Option ℚ
  clean_quantity : Option ℚ
  signal_strategy : Option String
deriving DecidableEq

/-- `_validate_signal_permissions`: run the three permission checks,
join their denial reasons with `"; "`, and allow execution only for a
non-empty payload with a configured client and all checks passing. -/
def validate_signal_permissions (loadResult : Except String Preference)
    (clientConfigured : Bool) (data : SignalData) : ValidationOutput :=
  let s := strategy_allows_execution loadResult data.strategy
  let d := direction_allows_action data.action s.2.2
  let p := product_allows_symbol data.symbol s.2.2
  let allow_execution :=
    data.nonempty && clientConfigured && s.1 && d.1 && p.1
  let ignore_messages := [s.2.1, d.2, p.2].filterMap id
  let ignore_message :=
    if ignore_messages = [] then none
    else some (String.intercalate "; " ignore_messages)
  { allow_execution := allow_execution,
    ignore_message := ignore_message,
    preference := s.2.2,
    clean_price := data.price,
    clean_quantity := data.quantity,
    signal_strategy := data.strategy }

/-- The timing trace dictionary built by `_initialize_timing_data` and
filled in along the pipeline; timestamps are abstract clock readings. -/
structure Timing where
  signal_sent : Option ℕ
  received : Option ℕ
  processed : Option ℕ
  sent_to_binance : Option ℕ
  executed : Option ℕ
deriving DecidableEq

/-- `_initialize_timing_data`: only `received` is set, to the current
clock. -/
def initialize_timing_data (now : ℕ) : Timing :=
  { signal_sent := none, received := some now, processed := none,
    sent_to_binance := none, executed := none }

/-- JSON response of the `/webhook` endpoint.  Optional fields default to
`none` for responses that omit them. -/
structure WebhookResponse where
  status : String
  message : String
  timing : Timing
  result : Option TradeResult := none
  selected_strategy : Option String := none
  selected_product : Option String := none
  signal_strategy : Option String := none
  signal_product : Option String := none
deriving DecidableEq

/-- External-world inputs of one `/webhook` request: the parsed body (or
the message of the exception `request.json()` raised), the preference
load, the trading environment, the clock readings of each stage, the
parsed alert time, and the optional exception messages of the two storage
calls. -/
structure WebhookEnv where
  jsonParse : Except String SignalData
  loadResult : Except String Preference
  env : Env
  tReceived : ℕ
  tProcessed : ℕ
  tSent : ℕ
  tExecuted : ℕ
  signalTimeParsed : Option ℕ
  storeExecutionFail : Option String
  storeSignalFail : Option String

/-- `_build_response`: a successful execution responds `"success"`, a
denial responds `"ignored"` with the denial message, and anything else
acknowledges the signal. -/
def build_response (allow_execution : Bool)
    (execution_result : Option TradeResult) (ignore_message : Option String)
    (preference : Option Preference) (data : SignalData) (timing : Timing)
    (signal_strategy : Option String) : WebhookResponse :=
  let selected_product := preference.bind Preference.product
  if allow_execution && execution_result.isSome then
    { status := "success", message := "Trade executed",
      result := execution_result,
      selected_strategy := preference.bind Preference.strategy,
      selected_product := selected_product, timing := timing }
  else
    match ignore_message with
    | some m =>
      { status := "ignored", message := m,
        selected_strategy := preference.bind Preference.strategy,
        selected_product := selected_product,
        signal_strategy := signal_strategy,
        signal_product := some (normalise_symbol data.symbol),
        timing := timing }
    | none =>
      { status := "success", message := "Signal received", timing := timing }

/-- The body of the `/webhook` handler inside its `try` block.  An
exception anywhere carries the message together with the timing data as
mutated up to that point. -/
def receive_signal_body (w : WebhookEnv) (timing0 : Timing) :
    Except (String × Timing) WebhookResponse :=
  match w.jsonParse with
  | .error e => .error (e, timing0)
  | .ok data =>
    let timing1 :=
      { timing0 with
        signal_sent := if data.time.isSome then w.signalTimeParsed else none }
    let v := validate_signal_permissions w.loadResult w.env.clientConfigured data
    let timing2 := { timing1 with processed := some w.tProcessed }
    if v.allow_execution then
      let timing3 :=
        { timing2 with sent_to_binance := some w.tSent,
                       executed := some w.tExecuted }
      let execution_result := execute_trade w.env data v.preference v.clean_price
      match w.storeExecutionFail with
      | some e => .error (e, timing3)
      | none =>
        match w.storeSignalFail with
        | some e => .error (e, timing3)
        | none =>
          .ok (build_response true (some execution_result) v.ignore_message
            v.preference data timing3 v.signal_strategy)
    else
      match (if v.ignore_message.isSome then w.storeExecutionFail else none) with
      | some e => .error (e, timing2)
      | none =>
        match w.storeSignalFail with
        | some e => .error (e, timing2)
        | none =>
          .ok (build_response false none v.ignore_message v.preference data
            timing2 v.signal_strategy)

/-- `receive_signal`: initialize the timing trace, run the body, and
convert any exception into a `"error"` response carrying the partial
timing trace. -/
def receive_signal (w : WebhookEnv) : WebhookResponse :=
  let timing0 := initialize_timing_data w.tReceived
  match receive_signal_body w timing0 with
  | .ok resp => resp
  | .error p => { status := "error", message := p.1, timing := p.2 }

/-- A baseline environment: configured client, no exchange failures, no
balance or ticker data, no dynamically fetched step. -/
def envBase : Env :=
  { clientConfigured := true, leverageFail := none, availableBalance := none,
    tickerPrice := none, dynamicStep := none, orderFail := none }

/-- The alert of the zero-quantity scenario:
`{action: "buy", symbol: "BTCUSDT.P", quantity: 0.0005}`. -/
def signalBTC : SignalData :=
  { action := some "buy", symbol := some "BTCUSDT.P",
    quantity := some (5/10000), price := none, strategy := some "ALSAPRO 1",
    time := none, nonempty := true }

/-- A preference with no capital-allocation percent and no leverage. -/
def prefBTC : Preference :=
  { product := none, strategy := some "ALSAPRO 1", direction_mode := none,
    leverage := none, capital_allocation_percent := none }

/-- A preference that makes all three permission checks deny: no strategy
selected, long-only mode, product `ETH`. -/
def prefDenyAll : Preference :=
  { product := some "ETH", strategy := none,
    direction_mode := some "allow_long_only", leverage := none,
    capital_allocation_percent := none }

/-- An alert with no action and a `BTCUSDT` symbol. -/
def dataDenyAll : SignalData :=
  { action := none, symbol := some "BTCUSDT", quantity := none,
    price := none, strategy := some "x", time := none, nonempty := true }

/-- A webhook request whose JSON body fails to parse. -/
def wErr : WebhookEnv :=
  { jsonParse := .error "bad json", loadResult := .ok prefBTC, env := envBase,
    tReceived := 0, tProcessed := 1, tSent := 2, tExecuted := 3,
    signalTimeParsed := none, storeExecutionFail := none,
    storeSignalFail := none }

theorem pyTrunc_of_nonneg {x : ℚ} (h : 0 ≤ x) : pyTrunc x = ⌊x⌋ :=
  if_neg (not_lt.mpr h)

theorem one_le_of_pyTrunc_pos {x : ℚ} (h : 0 < pyTrunc x) : 1 ≤ x := by
  unfold pyTrunc at h
  split at h
  · exfalso
    rename_i hx
    have h0 : (0:ℤ) ≤ ⌊-x⌋ := Int.floor_nonneg.mpr (by linarith)
    omega
  · have h1 : ((1:ℤ) : ℚ) ≤ x := Int.le_floor.mp (by omega)
    exact_mod_cast h1

theorem pyTrunc_intCast (m : ℤ) : pyTrunc (m : ℚ) = m := by
  unfold pyTrunc
  split
  · rw [show -(m:ℚ) = ((-m : ℤ) : ℚ) by push_cast; ring, Int.floor_intCast]
    omega
  · exact Int.floor_intCast m

/-- **C1.** For every quantity `q` and step size `s > 0`, the precision
normalizer returns, on success, a quantity that is an integer multiple of
`s`, at most `q`, and strictly positive; and it succeeds whenever
`q ≥ s`. -/
theorem quantity_precision_normalizer_sound (q : ℚ) (step : Dec)
    (hs : 0 < step.toRat) :
    (∀ r str, applyQuantityPrecisionNum q step = some (r, str) →
      (∃ m : ℤ, r = (m : ℚ) * step.toRat) ∧ r ≤ q ∧ 0 < r)
    ∧ (step.toRat ≤ q → (applyQuantityPrecisionNum q step).isSome = true) := by
  constructor
  · intro r str h
    by_cases hle : (pyTrunc (q / step.toRat) : ℚ) * step.toRat ≤ 0
    · simp [applyQuantityPrecisionNum, hle] at h
    · simp only [applyQuantityPrecisionNum, if_neg hle, Option.some.injEq,
        Prod.mk.injEq] at h
      obtain ⟨hr, -⟩ := h
      have hpos : 0 < (pyTrunc (q / step.toRat) : ℚ) * step.toRat :=
        lt_of_not_ge hle
      have ht : 0 < pyTrunc (q / step.toRat) := by
        by_contra hton
        have : (pyTrunc (q / step.toRat) : ℚ) ≤ 0 := by exact_mod_cast not_lt.mp hton
        nlinarith
      have hx : 1 ≤ q / step.toRat := one_le_of_pyTrunc_pos ht
      have hfl : pyTrunc (q / step.toRat) = ⌊q / step.toRat⌋ :=
        pyTrunc_of_nonneg (by linarith)
      refine ⟨⟨pyTrunc (q / step.toRat), hr.symm⟩, ?_, ?_⟩
      · rw [← hr, hfl]
        calc (⌊q / step.toRat⌋ : ℚ) * step.toRat
            ≤ (q / step.toRat) * step.toRat :=
              mul_le_mul_of_nonneg_right (Int.floor_le _) (le_of_lt hs)
          _ = q := div_mul_cancel₀ q (ne_of_gt hs)
      · rw [← hr]; exact hpos
  · intro hq
    have hx : 1 ≤ q / step.toRat := (one_le_div hs).mpr hq
    have hfl : pyTrunc (q / step.toRat) = ⌊q / step.toRat⌋ :=
      pyTrunc_of_nonneg (by linarith)
    have h1 : (1:ℤ) ≤ ⌊q / step.toRat⌋ := Int.le_floor.mpr (by exact_mod_cast hx)
    have hpos : 0 < (pyTrunc (q / step.toRat) : ℚ) * step.toRat := by
      rw [hfl]
      have : (1:ℚ) ≤ (⌊q / step.toRat⌋ : ℚ) := by exact_mod_cast h1
      nlinarith
    simp [applyQuantityPrecisionNum, not_le.mpr hpos]

theorem quantity_precision_normalizer_sound_witness :
    0 < (Dec.mk 1 (-3)).toRat ∧
      ((Dec.mk 1 (-3)).toRat ≤ 5 →
        (applyQuantityPrecisionNum 5 (Dec.mk 1 (-3))).isSome = true) :=
  ⟨by norm_num [Dec.toRat],
   (quantity_precision_normalizer_sound 5 ⟨1, -3⟩ (by norm_num [Dec.toRat])).2⟩

theorem Dec.toRat_natCast_nonneg (n : ℕ) (e : ℤ) :
    0 ≤ (Dec.mk (n : ℤ) e).toRat := by
  unfold Dec.toRat
  dsimp only
  split <;> positivity

theorem parseDecimal_nonneg {s : String} {d : Dec}
    (h : parseDecimal s = some d) : 0 ≤ d.toRat := by
  unfold parseDecimal at h
  split at h
  · rcases Option.map_eq_some'.mp h with ⟨n, -, rfl⟩
    exact Dec.toRat_natCast_nonneg n 0
  · split at h
    · rename_i a b ha hb
      injection h with h2
      subst h2
      exact Dec.toRat_natCast_nonneg _ _
    · exact absurd h (by simp)

theorem applyQuantityPrecisionNum_pos_step {q : ℚ} {step : Dec} {r : ℚ}
    {str : String} (hnn : 0 ≤ step.toRat)
    (h : applyQuantityPrecisionNum q step = some (r, str)) :
    0 < step.toRat := by
  rcases eq_or_lt_of_le hnn with h0 | h0
  · exfalso
    unfold applyQuantityPrecisionNum at h
    rw [← h0] at h
    simp at h
  · exact h0

theorem applyQuantityPrecisionNum_shape {q : ℚ} {step : Dec} {r : ℚ}
    {str : String} (h : applyQuantityPrecisionNum q step = some (r, str)) :
    r = (pyTrunc (q / step.toRat) : ℚ) * step.toRat ∧ 0 < r ∧
      str = String.mk (formatFixed r (decimalPlaces step)) := by
  by_cases hle : (pyTrunc (q / step.toRat) : ℚ) * step.toRat ≤ 0
  · simp [applyQuantityPrecisionNum, hle] at h
  · simp only [applyQuantityPrecisionNum, if_neg hle, Option.some.injEq,
      Prod.mk.injEq] at h
    obtain ⟨hr, hstr⟩ := h
    exact ⟨hr.symm, hr ▸ lt_of_not_ge hle, by rw [← hstr, hr]⟩

/-- **C10.** The precision normalizer is idempotent: re-normalizing its
own output (same step size) returns the same quantity and the same
rendered string; consequently the second normalization inside
`_execute_order` leaves the submitted order quantity string unchanged. -/
theorem precision_normalizer_idempotent :
    (∀ (q : ℚ) (step : Dec) (r : ℚ) (str : String), 0 < step.toRat →
      applyQuantityPrecisionNum q step = some (r, str) →
      applyQuantityPrecisionNum r step = some (r, str))
    ∧ (∀ (env : Env) (symbol action : String) (lev : Option ℤ)
        (pct : Option ℚ) (q r : ℚ) (str : String),
        env.orderFail = none →
        apply_quantity_precision q symbol env.dynamicStep = .ok (r, str) →
        execute_order env symbol action r lev pct =
          .orderSubmitted symbol (if action = "buy" then "BUY" else "SELL")
            str lev pct) := by
  have idem : ∀ (q : ℚ) (step : Dec) (r : ℚ) (str : String), 0 < step.toRat →
      applyQuantityPrecisionNum q step = some (r, str) →
      applyQuantityPrecisionNum r step = some (r, str) := by
    intro q step r str hs h
    obtain ⟨hr, hpos, hstr⟩ := applyQuantityPrecisionNum_shape h
    have hdiv : r / step.toRat = (pyTrunc (q / step.toRat) : ℚ) := by
      rw [hr]
      exact mul_div_cancel_right₀ _ (ne_of_gt hs)
    have htr : (pyTrunc (r / step.toRat) : ℚ) * step.toRat = r := by
      rw [hdiv, pyTrunc_intCast, ← hr]
    simp only [applyQuantityPrecisionNum, htr]
    rw [if_neg (not_le.mpr hpos), hstr]
  refine ⟨idem, ?_⟩
  intro env symbol action lev pct q r str ho h
  unfold apply_quantity_precision at h
  split at h
  · exact absurd h (by simp)
  · rename_i step hstep
    rcases hnum : applyQuantityPrecisionNum q step with - | p
    · rw [hnum] at h
      exact absurd h (by simp)
    · rw [hnum] at h
      simp only [Except.ok.injEq] at h
      subst h
      have hs : 0 < step.toRat :=
        applyQuantityPrecisionNum_pos_step (parseDecimal_nonneg hstep) hnum
      have h2 := idem q step r str hs hnum
      simp [execute_order, apply_quantity_precision, hstep, h2, ho]

theorem pyRound_intCast (m : ℤ) : pyRound (m : ℚ) = m := by
  simp [pyRound, Int.floor_intCast]

theorem formatFixed_of_intCast {x : ℚ} {d : ℕ} {n : ℤ}
    (h : x * 10 ^ d = (n : ℚ)) :
    formatFixed x d =
      (if d = 0 then
        (if n < 0 then ['-'] else []) ++ natDigits (n.natAbs / 10 ^ d)
      else
        (if n < 0 then ['-'] else []) ++ natDigits (n.natAbs / 10 ^ d) ++
          '.' :: (List.replicate
              (d - (natDigits (n.natAbs % 10 ^ d)).length) '0' ++
            natDigits (n.natAbs % 10 ^ d))) := by
  have hr : pyRound (x * 10 ^ d) = n := by rw [h]; exact pyRound_intCast n
  simp only [formatFixed, hr]

theorem applyQuantityPrecisionNum_eval {q : ℚ} {step : Dec} {s : ℚ} {t : ℤ}
    {d : ℕ} {l : List Char} (hs : step.toRat = s) (ht : pyTrunc (q / s) = t)
    (hpos : 0 < (t : ℚ) * s) (hd : decimalPlaces step = d)
    (hf : formatFixed ((t : ℚ) * s) d = l) :
    applyQuantityPrecisionNum q step = some ((t : ℚ) * s, String.mk l) := by
  simp only [applyQuantityPrecisionNum, hs, ht, hd, hf,
    if_neg (not_le.mpr hpos)]

theorem precision_normalizer_idempotent_witness :
    applyQuantityPrecisionNum (5 : ℚ) ⟨1, -3⟩ = some (5, "5.000") := by
  have hf : formatFixed ((5000 : ℤ) * ((1 : ℚ)/1000)) 3 = "5.000".data := by
    rw [formatFixed_of_intCast
      (show ((5000 : ℤ) * ((1 : ℚ)/1000)) * 10 ^ 3 = ((5000 : ℤ) : ℚ) by
        norm_num)]
    decide
  have heval : applyQuantityPrecisionNum (5 : ℚ) ⟨1, -3⟩
      = some (((5000 : ℤ) : ℚ) * (1/1000), "5.000") :=
    applyQuantityPrecisionNum_eval (by norm_num [Dec.toRat, show ((3:ℤ)).toNat = 3 from rfl])
      (by norm_num [pyTrunc]) (by norm_num) (by decide) hf
  have h5 : ((5000 : ℤ) : ℚ) * (1/1000) = 5 := by norm_num
  have heval5 : applyQuantityPrecisionNum (5 : ℚ) ⟨1, -3⟩ = some (5, "5.000") := by
    rw [heval, h5]
  exact precision_normalizer_idempotent.1 5 ⟨1, -3⟩ 5 "5.000"
    (by norm_num [Dec.toRat, show ((3:ℤ)).toNat = 3 from rfl]) heval5

theorem isDigit_ofNat_digit {k : ℕ} (hk : k < 10) :
    (Char.ofNat (48 + k)).isDigit = true := by
  interval_cases k <;> decide

theorem mem_natDigitsGo {c : Char} :
    ∀ fuel n acc, c ∈ natDigitsGo fuel n acc → c ∈ acc ∨ c.isDigit = true := by
  intro fuel
  induction fuel with
  | zero => intro n acc h; exact .inl h
  | succ f ih =>
    intro n acc h
    rw [natDigitsGo] at h
    by_cases hn : n = 0
    · rw [if_pos hn] at h; exact .inl h
    · rw [if_neg hn] at h
      rcases ih _ _ h with h2 | h2
      · rcases List.mem_cons.mp h2 with h3 | h3
        · exact .inr (h3 ▸ isDigit_ofNat_digit (Nat.mod_lt _ (by norm_num)))
        · exact .inl h3
      · exact .inr h2

theorem length_natDigitsGo :
    ∀ fuel d n acc, n < 10 ^ d →
      (natDigitsGo fuel n acc).length ≤ acc.length + d := by
  intro fuel
  induction fuel with
  | zero => intro d n acc h; exact Nat.le_add_right _ _
  | succ f ih =>
    intro d n acc h
    rw [natDigitsGo]
    by_cases hn : n = 0
    · rw [if_pos hn]; exact Nat.le_add_right _ _
    · rw [if_neg hn]
      cases d with
      | zero => exact absurd (by omega : n = 0) hn
      | succ d2 =>
        have h2 : n / 10 < 10 ^ d2 :=
          (Nat.div_lt_iff_lt_mul (by norm_num)).mpr (by rw [← pow_succ]; exact h)
        calc (natDigitsGo f (n / 10)
              (Char.ofNat (48 + n % 10) :: acc)).length
            ≤ (Char.ofNat (48 + n % 10) :: acc).length + d2 := ih d2 _ _ h2
          _ = acc.length + (d2 + 1) := by simp [List.length_cons]; omega

theorem mem_natDigits {n : ℕ} {c : Char} (h : c ∈ natDigits n) :
    c.isDigit = true := by
  unfold natDigits at h
  split at h
  · rcases List.mem_singleton.mp h with rfl; decide
  · rcases mem_natDigitsGo _ _ _ h with h2 | h2
    · exact absurd h2 (List.not_mem_nil c)
    · exact h2

theorem natDigits_length_le {n d : ℕ} (hd : 1 ≤ d) (h : n < 10 ^ d) :
    (natDigits n).length ≤ d := by
  unfold natDigits
  split
  · simpa using hd
  · simpa using length_natDigitsGo n d n [] h

theorem splitOnce_eq_none {sep : Char} :
    ∀ {l : List Char}, (∀ c ∈ l, c ≠ sep) → splitOnce sep l = none := by
  intro l
  induction l with
  | nil => intro; rfl
  | cons c cs ih =>
    intro h
    simp only [splitOnce, if_neg (h c (List.mem_cons_self c cs)),
      ih (fun x hx => h x (List.mem_cons_of_mem _ hx)), Option.map_none']

theorem splitOnce_append {sep : Char} :
    ∀ {pre post : List Char}, (∀ c ∈ pre, c ≠ sep) →
      splitOnce sep (pre ++ sep :: post) = some (pre, post) := by
  intro pre
  induction pre with
  | nil => intro post h; simp [splitOnce]
  | cons c cs ih =>
    intro post h
    have hcs : splitOnce sep (cs ++ sep :: post) = some (cs, post) :=
      ih (fun x hx => h x (List.mem_cons_of_mem _ hx))
    simp [splitOnce, if_neg (h c (List.mem_cons_self c cs)), hcs]

theorem ne_dot_of_isDigit {c : Char} (h : c.isDigit = true) : c ≠ '.' := by
  rintro rfl
  exact absurd h (by decide)

theorem no_dot_in_head (n : ℤ) (ip : ℕ) :
    ∀ c ∈ (if n < 0 then ['-'] else []) ++ natDigits ip, c ≠ '.' := by
  intro c hc
  rcases List.mem_append.mp hc with h | h
  · split at h
    · rcases List.mem_singleton.mp h with rfl; decide
    · exact absurd h (List.not_mem_nil c)
  · exact ne_dot_of_isDigit (mem_natDigits h)

theorem decimalsOfL_formatFixed (x : ℚ) (d : ℕ) :
    decimalsOfL (formatFixed x d) = d := by
  by_cases hd : d = 0
  · subst hd
    have hred : formatFixed x 0 =
        (if pyRound (x * 10 ^ 0) < 0 then ['-'] else []) ++
          natDigits ((pyRound (x * 10 ^ 0)).natAbs / 10 ^ 0) := by
      simp [formatFixed]
    rw [hred]
    unfold decimalsOfL
    rw [splitOnce_eq_none (no_dot_in_head _ _)]
  · simp only [formatFixed, if_neg hd]
    unfold decimalsOfL
    rw [splitOnce_append (no_dot_in_head _ _)]
    have hfp : (pyRound (x * 10 ^ d)).natAbs % 10 ^ d < 10 ^ d :=
      Nat.mod_lt _ (Nat.pos_pow_of_pos d (by norm_num))
    have hlen : (natDigits ((pyRound (x * 10 ^ d)).natAbs % 10 ^ d)).length ≤ d :=
      natDigits_length_le (by omega) hfp
    simp [List.length_append, List.length_replicate]
    omega

/-- **C9.** Every successfully normalized quantity is rendered as a
fixed-point string with exactly as many decimal places as the step size's
own precision, and `_execute_order` passes exactly the rendered string of
its own normalization to the order-submission call. -/
theorem rendered_quantity_decimal_places :
    (∀ (q : ℚ) (step : Dec) (r : ℚ) (str : String),
      applyQuantityPrecisionNum q step = some (r, str) →
      decimalsOfStr str = decimalPlaces step)
    ∧ (∀ (env : Env) (symbol action : String) (qty : ℚ) (lev : Option ℤ)
        (pct : Option ℚ) (sym side qs : String) (al : Option ℤ)
        (pv : Option ℚ),
        execute_order env symbol action qty lev pct =
          .orderSubmitted sym side qs al pv →
        ∃ r, apply_quantity_precision qty symbol env.dynamicStep
          = .ok (r, qs)) := by
  constructor
  · intro q step r str h
    obtain ⟨-, -, hstr⟩ := applyQuantityPrecisionNum_shape h
    rw [hstr]
    exact decimalsOfL_formatFixed r (decimalPlaces step)
  · intro env symbol action qty lev pct sym side qs al pv h
    unfold execute_order at h
    rcases hap : apply_quantity_precision qty symbol env.dynamicStep
      with e | p
    · rw [hap] at h; exact absurd h (by simp)
    · rw [hap] at h
      rcases ho : env.orderFail with - | e
      · rw [ho] at h
        simp only [TradeResult.orderSubmitted.injEq] at h
        obtain ⟨-, -, hqs, -, -⟩ := h
        subst hqs
        exact ⟨p.1, by rw [Prod.mk.eta]⟩
      · rw [ho] at h; exact absurd h (by simp)

theorem rendered_quantity_decimal_places_witness :
    decimalsOfStr "5.000" = decimalPlaces ⟨1, -3⟩ := by
  have hf : formatFixed ((5000 : ℤ) * ((1 : ℚ)/1000)) 3 = "5.000".data := by
    rw [formatFixed_of_intCast
      (show ((5000 : ℤ) * ((1 : ℚ)/1000)) * 10 ^ 3 = ((5000 : ℤ) : ℚ) by
        norm_num)]
    decide
  have heval : applyQuantityPrecisionNum (5 : ℚ) ⟨1, -3⟩
      = some (((5000 : ℤ) : ℚ) * (1/1000), "5.000") :=
    applyQuantityPrecisionNum_eval
      (by norm_num [Dec.toRat, show ((3:ℤ)).toNat = 3 from rfl])
      (by norm_num [pyTrunc]) (by norm_num) (by decide) hf
  exact rendered_quantity_decimal_places.1 5 ⟨1, -3⟩ _ _ heval

/-- **C2.** When the account balance and a reference price are available
and a positive capital-allocation percent is configured, the raw quantity
chosen by the position sizer is `max` of the alert's literal quantity and
the capital-derived quantity, hence never below the literal quantity. -/
theorem capital_sizing_floor (env : Env) (base pct p b : ℚ)
    (refPrice signalPrice : Option ℚ)
    (hb : env.availableBalance = some b)
    (hp : refPrice = some p)
    (hpct : 0 < pct) :
    (calculate_quantity_raw env base (some pct) refPrice signalPrice).1
        = max base (calculate_quantity_from_capital env pct base (some p))
    ∧ base ≤ (calculate_quantity_raw env base (some pct) refPrice
        signalPrice).1 := by
  subst hp
  have hmax : max 0 pct = pct := max_eq_right (le_of_lt hpct)
  refine ⟨?_, ?_⟩
  · simp [calculate_quantity_raw, hmax, hpct]
  · simp [calculate_quantity_raw, hmax, hpct, le_max_left]

theorem capital_sizing_floor_witness :
    ({ envBase with availableBalance := some 5000 } : Env).availableBalance
        = some 5000
    ∧ (2 : ℚ) ≤ (calculate_quantity_raw
        { envBase with availableBalance := some 5000 } 2 (some 10) (some 50)
        none).1 :=
  ⟨rfl,
   (capital_sizing_floor { envBase with availableBalance := some 5000 }
      2 10 50 5000 (some 50) none rfl rfl (by norm_num)).2⟩

/-- **C4.** The leverage controller always issues the leverage-set call
with the rounded value clamped to `[1, 125]`; a `None` or zero configured
leverage is a no-op; and a failed leverage-set call aborts
`execute_trade` with the error (no order is submitted). -/
theorem leverage_clamp_and_hard_error :
    (∀ (x : ℚ) (f : Option String) (l : ℤ),
      apply_leverage (some x) f = .set l →
      l = max 1 (min 125 (pyRound x)) ∧ 1 ≤ l ∧ l ≤ 125)
    ∧ (∀ f, apply_leverage none f = .noSet)
    ∧ (∀ f, apply_leverage (some 0) f = .noSet)
    ∧ (∀ (env : Env) (signal : SignalData) (pref : Preference)
        (rp : Option ℚ) (a : String) (q x : ℚ) (e : String),
        env.clientConfigured = true →
        signal.action = some a → a.data ≠ [] → signal.quantity = some q →
        pref.leverage = some x → x ≠ 0 → env.leverageFail = some e →
        execute_trade env signal (some pref) rp =
          .errorRes ("Failed to set leverage: " ++ e)) := by
  refine ⟨?_, fun f => rfl, ?_, ?_⟩
  · intro x f l h
    simp only [apply_leverage] at h
    by_cases hx : x = 0
    · rw [if_pos hx] at h; exact absurd h (by simp)
    · rw [if_neg hx] at h
      cases f with
      | none =>
        injection h with h2
        refine ⟨h2.symm, ?_, ?_⟩ <;> omega
      | some e => exact absurd h (by simp)
  · intro f
    simp [apply_leverage]
  · intro env signal pref rp a q x e hc ha hne hq hl hx hf
    unfold execute_trade
    rw [hc]
    simp [validate_signal_data, ha, hne, hq, apply_leverage, hl, hx, hf]

theorem leverage_clamp_and_hard_error_witness :
    ((1:ℤ) ≤ 125 ∧ (125:ℤ) ≤ 125)
    ∧ apply_leverage none none = .noSet
    ∧ execute_trade { envBase with leverageFail := some "boom" } signalBTC
        (some { prefBTC with leverage := some 130 }) none
      = .errorRes ("Failed to set leverage: " ++ "boom") := by
  have heval : apply_leverage (some (130:ℚ)) none = .set 125 := by
    have hr : pyRound (130:ℚ) = 130 := by
      have h0 := pyRound_intCast 130
      norm_num at h0
      exact h0
    have hred : apply_leverage (some (130:ℚ)) none
        = .set (max 1 (min 125 (pyRound (130:ℚ)))) := by
      simp only [apply_leverage]
      rw [if_neg (by norm_num)]
    rw [hred, hr]
    decide
  refine ⟨?_, leverage_clamp_and_hard_error.2.1 none, ?_⟩
  · have h := leverage_clamp_and_hard_error.1 130 none 125 heval
    exact ⟨h.2.1, h.2.2⟩
  · exact leverage_clamp_and_hard_error.2.2.2
      { envBase with leverageFail := some "boom" } signalBTC
      { prefBTC with leverage := some 130 } none "buy" (5/10000) 130 "boom"
      rfl rfl (by decide) rfl rfl (by norm_num) rfl

theorem data_ne_nil_of_pyLowerStr_eq {a s : String} (h : pyLowerStr a = s)
    (hs : s.data ≠ []) : a.data ≠ [] := by
  intro h0
  apply hs
  rw [← h]
  simp [pyLowerStr, pyLower, h0]

/-- **C5.** Under `allow_long_only` the direction filter denies every
sell alert and allows every buy alert, whatever the other fields; under
`allow_short_only` symmetrically; an unset or `allow_long_short` mode
allows everything; and a missing action under a restrictive mode is
denied with `"Signal missing action value"`. -/
theorem direction_filter_spec :
    (∀ (pref : Preference) (action : String),
      pyLowerStr (pref.direction_mode.getD "") = "allow_long_only" →
      (pyLowerStr action = "sell" →
        direction_allows_action (some action) (some pref)
          = (false, some "Blocked short signal: long-only mode enabled"))
      ∧ (pyLowerStr action = "buy" →
        direction_allows_action (some action) (some pref) = (true, none)))
    ∧ (∀ (pref : Preference) (action : String),
      pyLowerStr (pref.direction_mode.getD "") = "allow_short_only" →
      (pyLowerStr action = "buy" →
        direction_allows_action (some action) (some pref)
          = (false, some "Blocked long signal: short-only mode enabled"))
      ∧ (pyLowerStr action = "sell" →
        direction_allows_action (some action) (some pref) = (true, none)))
    ∧ (∀ (pref : Preference) (action : Option String),
      (pyLowerStr (pref.direction_mode.getD "")).data = [] ∨
        pyLowerStr (pref.direction_mode.getD "") = "allow_long_short" →
      direction_allows_action action (some pref) = (true, none))
    ∧ (∀ pref : Preference,
      pyLowerStr (pref.direction_mode.getD "") = "allow_long_only" ∨
        pyLowerStr (pref.direction_mode.getD "") = "allow_short_only" →
      direction_allows_action none (some pref)
        = (false, some "Signal missing action value")) := by
  refine ⟨?_, ?_, ?_, ?_⟩
  · intro pref action hm
    constructor
    · intro hs
      have hne : action.data ≠ [] :=
        data_ne_nil_of_pyLowerStr_eq hs (by decide)
      simp +decide [direction_allows_action, hm, hs, hne]
    · intro hs
      have hne : action.data ≠ [] :=
        data_ne_nil_of_pyLowerStr_eq hs (by decide)
      simp +decide [direction_allows_action, hm, hs, hne]
  · intro pref action hm
    constructor
    · intro hs
      have hne : action.data ≠ [] :=
        data_ne_nil_of_pyLowerStr_eq hs (by decide)
      simp +decide [direction_allows_action, hm, hs, hne]
    · intro hs
      have hne : action.data ≠ [] :=
        data_ne_nil_of_pyLowerStr_eq hs (by decide)
      simp +decide [direction_allows_action, hm, hs, hne]
  · intro pref action hm
    rcases hm with hm | hm <;> simp +decide [direction_allows_action, hm]
  · intro pref hm
    rcases hm with hm | hm <;> simp +decide [direction_allows_action, hm]

theorem direction_filter_spec_witness :
    direction_allows_action (some "SELL")
        (some { prefBTC with direction_mode := some "Allow_Long_Only" })
      = (false, some "Blocked short signal: long-only mode enabled")
    ∧ direction_allows_action none
        (some { prefBTC with direction_mode := some "Allow_Long_Only" })
      = (false, some "Signal missing action value") :=
  ⟨(direction_filter_spec.1
      { prefBTC with direction_mode := some "Allow_Long_Only" } "SELL"
      (by decide)).1 (by decide),
   direction_filter_spec.2.2.2
      { prefBTC with direction_mode := some "Allow_Long_Only" }
      (.inl (by decide))⟩

/-- **C7.** A missing selected strategy denies with the
no-strategy-selected reason, a missing alert strategy denies with the
missing-strategy reason, a case-insensitive mismatch denies with a
message carrying both values, multiple denial reasons are joined with
`"; "`, and execution is allowed only with a configured client and a
non-empty payload. -/
theorem strategy_permission_spec :
    (∀ (pref : Preference) (sig : Option String),
      (pyStripStr (pref.strategy.getD "")).data = [] →
      strategy_allows_execution (.ok pref) sig
        = (false, some "No strategy selected in control panel", some pref))
    ∧ (∀ (pref : Preference) (sig : Option String),
      (pyStripStr (pref.strategy.getD "")).data ≠ [] →
      (pyStripStr (sig.getD "")).data = [] →
      strategy_allows_execution (.ok pref) sig
        = (false, some "Signal missing strategy value", some pref))
    ∧ (∀ (pref : Preference) (sig : Option String),
      (pyStripStr (pref.strategy.getD "")).data ≠ [] →
      (pyStripStr (sig.getD "")).data ≠ [] →
      pyLowerStr (pyStripStr (sig.getD ""))
          ≠ pyLowerStr (pyStripStr (pref.strategy.getD "")) →
      strategy_allows_execution (.ok pref) sig
        = (false,
           some ("Strategy mismatch (selected "
             ++ pyStripStr (pref.strategy.getD "") ++ ", signal "
             ++ pyStripStr (sig.getD "") ++ ")"),
           some pref))
    ∧ (∀ (loadResult : Except String Preference) (client : Bool)
        (data : SignalData) (r1 r2 r3 : String),
      (strategy_allows_execution loadResult data.strategy).2.1 = some r1 →
      (direction_allows_action data.action
          (strategy_allows_execution loadResult data.strategy).2.2).2
        = some r2 →
      (product_allows_symbol data.symbol
          (strategy_allows_execution loadResult data.strategy).2.2).2
        = some r3 →
      (validate_signal_permissions loadResult client data).ignore_message
        = some (String.intercalate "; " [r1, r2, r3]))
    ∧ (∀ (loadResult : Except String Preference) (client : Bool)
        (data : SignalData),
      (validate_signal_permissions loadResult client data).allow_execution
          = true →
      client = true ∧ data.nonempty = true) := by
  refine ⟨?_, ?_, ?_, ?_, ?_⟩
  · intro pref sig h
    simp [strategy_allows_execution, h]
  · intro pref sig h1 h2
    simp [strategy_allows_execution, h1, h2]
  · intro pref sig h1 h2 h3
    simp [strategy_allows_execution, h1, h2, h3]
  · intro loadResult client data r1 r2 r3 h1 h2 h3
    simp [validate_signal_permissions, h1, h2, h3]
  · intro loadResult client data h
    simp only [validate_signal_permissions, Bool.and_eq_true] at h
    exact ⟨h.1.1.1.2, h.1.1.1.1⟩

theorem strategy_permission_spec_witness :
    (validate_signal_permissions (.ok prefDenyAll) true
        dataDenyAll).ignore_message
      = some (String.intercalate "; "
          ["No strategy selected in control panel",
           "Signal missing action value",
           "Product mismatch (selected ETH, signal BTC)"]) :=
  strategy_permission_spec.2.2.2.1 (.ok prefDenyAll) true dataDenyAll
    "No strategy selected in control panel" "Signal missing action value"
    "Product mismatch (selected ETH, signal BTC)"
    (by decide) (by decide) (by decide)

/-- **C6.** The scenario alert `{action: "buy", symbol: "BTCUSDT.P",
quantity: 0.0005}` with table step `0.001` and no capital percent fails
sizing with the zero-quantity error (`"Calculated quantity is zero"`),
and no order is submitted. -/
theorem zero_quantity_scenario :
    execute_trade envBase signalBTC (some prefBTC) none
      = .errorRes "Calculated quantity is zero" := by
  rw [execute_trade]
  simp +decide [envBase, signalBTC, prefBTC, validate_signal_data,
    apply_leverage, calculate_quantity, calculate_quantity_raw,
    apply_quantity_precision, get_step_size, applyQuantityPrecisionNum,
    pyTrunc, Dec.toRat, decimalPlaces, parseDecimal, digitsVal, splitOnce,
    removeAll, removeAllGo, pyUpper, pyLowerStr, pyLower, List.lookup,
    symbol_step_sizes]
  rw [show |(5:ℚ)/10000| = 5/10000 from by norm_num]
  norm_num

theorem build_response_status (a : Bool) (er : Option TradeResult)
    (im : Option String) (pref : Option Preference) (data : SignalData)
    (timing : Timing) (ss : Option String) :
    (build_response a er im pref data timing ss).status = "success" ∨
      (build_response a er im pref data timing ss).status = "ignored" := by
  by_cases hc : (a && er.isSome) = true
  · simp [build_response, hc]
  · simp only [build_response, hc, if_false, Bool.false_eq_true]
    rcases im with - | m <;> simp

/-- **C8.** The `/webhook` handler always produces a structured response
(status `success`, `ignored` or `error`); any exception raised by the
body is converted into a `status: "error"` response carrying the
exception message and the timing trace captured up to that point. -/
theorem webhook_top_level_error_handling :
    (∀ w : WebhookEnv, (receive_signal w).status = "success" ∨
      (receive_signal w).status = "ignored" ∨
      (receive_signal w).status = "error")
    ∧ (∀ (w : WebhookEnv) (m : String) (t : Timing),
        receive_signal_body w (initialize_timing_data w.tReceived)
          = .error (m, t) →
        receive_signal w
          = { status := "error", message := m, timing := t }) := by
  have hok : ∀ (w : WebhookEnv) (t0 : Timing) (resp : WebhookResponse),
      receive_signal_body w t0 = .ok resp →
      resp.status = "success" ∨ resp.status = "ignored" := by
    intro w t0 resp h
    unfold receive_signal_body at h
    rcases hjson : w.jsonParse with e | data
    · rw [hjson] at h
      exact absurd h (by simp)
    · rw [hjson] at h
      dsimp only at h
      by_cases hallow : (validate_signal_permissions w.loadResult
          w.env.clientConfigured data).allow_execution = true
      · rw [if_pos hallow] at h
        rcases hse : w.storeExecutionFail with - | e
        · rw [hse] at h
          rcases hss : w.storeSignalFail with - | e2
          · rw [hss] at h
            injection h with h2
            rw [← h2]
            apply build_response_status
          · rw [hss] at h
            exact absurd h (by simp)
        · rw [hse] at h
          exact absurd h (by simp)
      · rw [if_neg hallow] at h
        rcases hig : (if (validate_signal_permissions w.loadResult
              w.env.clientConfigured data).ignore_message.isSome = true then
            w.storeExecutionFail else none) with - | e
        · rw [hig] at h
          rcases hss : w.storeSignalFail with - | e2
          · rw [hss] at h
            injection h with h2
            rw [← h2]
            apply build_response_status
          · rw [hss] at h
            exact absurd h (by simp)
        · rw [hig] at h
          exact absurd h (by simp)
  constructor
  · intro w
    unfold receive_signal
    rcases hbody : receive_signal_body w (initialize_timing_data w.tReceived)
      with p | resp
    · simp [hbody]
    · simp only [hbody]
      rcases hok w _ resp hbody with h | h
      · exact .inl h
      · exact .inr (.inl h)
  · intro w m t h
    unfold receive_signal
    simp [h]

theorem webhook_top_level_error_handling_witness :
    receive_signal wErr
      = { status := "error", message := "bad json",
          timing := initialize_timing_data 0 } :=
  webhook_top_level_error_handling.2 wErr "bad json"
    (initialize_timing_data 0) rfl

theorem toNat_ofNat_valid (m : ℕ) (h : m < 55296) :
    (Char.ofNat m).toNat = m := by
  rw [Char.ofNat, dif_pos (Or.inl h)]
  simp [Char.ofNatAux, Char.toNat, UInt32.ofNat', UInt32.toNat]

theorem toUpper_idem (c : Char) : c.toUpper.toUpper = c.toUpper := by
  unfold Char.toUpper
  by_cases h : 97 ≤ c.toNat ∧ c.toNat ≤ 122
  · rw [if_pos h]
    have hv : (Char.ofNat (c.toNat - 32)).toNat = c.toNat - 32 :=
      toNat_ofNat_valid _ (by omega)
    rw [if_neg (by omega)]
  · rw [if_neg h, if_neg h]

theorem ne_of_isAlpha {c x : Char} (h : c.isAlpha = true)
    (hx : x.isAlpha = false) : c ≠ x := by
  intro he
  subst he
  rw [h] at hx
  cases hx

theorem not_ws_of_isAlpha {c : Char} (h : c.isAlpha = true) :
    c.isWhitespace = false := by
  have h1 : c ≠ ' ' := ne_of_isAlpha h (by decide)
  have h2 : c ≠ '\t' := ne_of_isAlpha h (by decide)
  have h3 : c ≠ '\r' := ne_of_isAlpha h (by decide)
  have h4 : c ≠ '\n' := ne_of_isAlpha h (by decide)
  simp [Char.isWhitespace, h1, h2, h3, h4]

theorem dropWhile_eq_self_of {p : Char → Bool} :
    ∀ {l : List Char}, (∀ c ∈ l, p c = false) → l.dropWhile p = l := by
  intro l
  induction l with
  | nil => intro; rfl
  | cons c cs ih =>
    intro h
    rw [List.dropWhile_cons, if_neg (by simp [h c (List.mem_cons_self c cs)])]

theorem map_eq_self_of {f : Char → Char} :
    ∀ {l : List Char}, (∀ c ∈ l, f c = c) → l.map f = l := by
  intro l
  induction l with
  | nil => intro; rfl
  | cons c cs ih =>
    intro h
    rw [List.map_cons, h c (List.mem_cons_self c cs),
      ih (fun x hx => h x (List.mem_cons_of_mem _ hx))]

theorem splitOnce_mem {sep : Char} :
    ∀ {l a b : List Char}, splitOnce sep l = some (a, b) →
      (∀ c ∈ a, c ∈ l) ∧ (∀ c ∈ b, c ∈ l) := by
  intro l
  induction l with
  | nil => intro a b h; cases h
  | cons c cs ih =>
    intro a b h
    simp only [splitOnce] at h
    by_cases hc : c = sep
    · rw [if_pos hc] at h
      injection h with h2
      have ha : a = [] := (congrArg Prod.fst h2).symm
      have hb : b = cs := (congrArg Prod.snd h2).symm
      subst ha
      subst hb
      exact ⟨fun x hx => absurd hx (List.not_mem_nil x),
        fun x hx => List.mem_cons_of_mem _ hx⟩
    · rw [if_neg hc] at h
      cases hsp : splitOnce sep cs with
      | none => rw [hsp] at h; cases h
      | some p =>
        rw [hsp] at h
        simp only [Option.map_some', Option.some.injEq] at h
        have ha : a = c :: p.1 := (congrArg Prod.fst h).symm
        have hb : b = p.2 := (congrArg Prod.snd h).symm
        subst ha
        subst hb
        obtain ⟨ih1, ih2⟩ :=
          ih (show splitOnce sep cs = some (p.1, p.2) by
            rw [hsp, Prod.mk.eta])
        constructor
        · intro x hx
          rcases List.mem_cons.mp hx with rfl | hx2
          · exact List.mem_cons_self x cs
          · exact List.mem_cons_of_mem _ (ih1 x hx2)
        · intro x hx
          exact List.mem_cons_of_mem _ (ih2 x hx)

theorem removeQuoteSuffix_subset {l : List Char} :
    ∀ c ∈ removeQuoteSuffix l, c ∈ l := by
  intro c hc
  unfold removeQuoteSuffix at hc
  repeat' split at hc
  all_goals first
    | exact List.take_subset _ _ hc
    | exact hc

theorem mem_normaliseSymbolCore {l : List Char} {c : Char}
    (hc : c ∈ normaliseSymbolCore l) : c.isAlpha = true ∧ c.toUpper = c := by
  unfold normaliseSymbolCore at hc
  obtain ⟨hc, halpha⟩ := List.mem_filter.mp hc
  refine ⟨halpha, ?_⟩
  have hc2 := removeQuoteSuffix_subset c hc
  obtain ⟨hc3, -⟩ := List.mem_filter.mp hc2
  have hc4 : c ∈ pyUpper (pyStrip l) := by
    rcases hdot : splitOnce '.'
        (match splitOnce ':' (pyUpper (pyStrip l)) with
          | some p => p.2
          | none => pyUpper (pyStrip l)) with - | p2
    all_goals rcases hcolon : splitOnce ':' (pyUpper (pyStrip l)) with - | p1
    all_goals rw [hcolon] at hdot hc3
    all_goals rw [hdot] at hc3
    · exact hc3
    · exact (splitOnce_mem hcolon).2 c hc3
    · exact (splitOnce_mem hdot).1 c hc3
    · exact (splitOnce_mem hcolon).2 c ((splitOnce_mem hdot).1 c hc3)
  obtain ⟨a, -, ha⟩ := List.mem_map.mp hc4
  rw [← ha]
  exact toUpper_idem a

theorem normaliseSymbolCore_fixed {m : List Char}
    (h1 : ∀ c ∈ m, c.isAlpha = true ∧ c.toUpper = c)
    (h2 : endsWithQuoteSuffix m = false) :
    normaliseSymbolCore m = m := by
  have hsw : ∀ c ∈ m, Char.isWhitespace c = false :=
    fun c hc => not_ws_of_isAlpha (h1 c hc).1
  have hstrip : pyStrip m = m := by
    unfold pyStrip
    rw [dropWhile_eq_self_of hsw,
      dropWhile_eq_self_of (fun c hc => hsw c (List.mem_reverse.mp hc)),
      List.reverse_reverse]
  have hupper : pyUpper m = m := map_eq_self_of (fun c hc => (h1 c hc).2)
  have hcolon : splitOnce ':' m = none :=
    splitOnce_eq_none (fun c hc => ne_of_isAlpha (h1 c hc).1 (by decide))
  have hdot : splitOnce '.' m = none :=
    splitOnce_eq_none (fun c hc => ne_of_isAlpha (h1 c hc).1 (by decide))
  have hus : m.filter (fun c => c ≠ '_') = m :=
    List.filter_eq_self.mpr (fun c hc =>
      decide_eq_true (ne_of_isAlpha (h1 c hc).1 (by decide)))
  have hrq : removeQuoteSuffix m = m := by
    simp only [endsWithQuoteSuffix, Bool.or_eq_false_iff] at h2
    obtain ⟨⟨⟨ha, hb⟩, hc⟩, hd⟩ := h2
    simp [removeQuoteSuffix, ha, hb, hc, hd]
  have hfil : m.filter Char.isAlpha = m :=
    List.filter_eq_self.mpr (fun c hc => (h1 c hc).1)
  simp only [normaliseSymbolCore, hstrip, hupper, hcolon, hdot, hus, hrq,
    hfil]

/-- **C3 (counterexample).** Symbol normalization is not idempotent: the
input `"BTCUSDTUSDT"` normalizes to `"BTCUSDT"`, which normalizes again
to `"BTC"`. -/
theorem normalise_symbol_not_idempotent :
    normalise_symbol (some (normalise_symbol (some "BTCUSDTUSDT")))
      ≠ normalise_symbol (some "BTCUSDTUSDT") := by decide

/-- **C3 (amended).** Symbol normalization is idempotent on every input
whose normalized form does not still end with one of the quote-currency
suffixes `USDT`, `USD`, `PERP`, `USDC`. -/
theorem normalise_symbol_idempotent_unless_quote_suffix (x : Option String)
    (h : endsWithQuoteSuffix (normalise_symbol x).data = false) :
    normalise_symbol (some (normalise_symbol x)) = normalise_symbol x := by
  have hemptycase : normalise_symbol (some "") = "" := by
    simp [normalise_symbol, show ("" : String).data = [] from rfl]
  rcases x with - | s
  · exact hemptycase
  · by_cases hs : s.data = []
    · rw [show normalise_symbol (some s) = "" from by
        simp [normalise_symbol, hs]]
      exact hemptycase
    · have hval : normalise_symbol (some s)
          = String.mk (normaliseSymbolCore s.data) := by
        simp [normalise_symbol, hs]
      rw [hval] at h ⊢
      by_cases hempty : normaliseSymbolCore s.data = []
      · rw [hempty]
        have : String.mk ([] : List Char) = "" := by decide
        rw [this]
        exact hemptycase
      · have h1 : ∀ c ∈ normaliseSymbolCore s.data,
            c.isAlpha = true ∧ c.toUpper = c :=
          fun c hc => mem_normaliseSymbolCore hc
        have hfix := normaliseSymbolCore_fixed h1 h
        simp only [normalise_symbol]
        rw [if_neg hempty]
        exact congrArg String.mk hfix

theorem normalise_symbol_idempotent_unless_quote_suffix_witness :
    endsWithQuoteSuffix
        (normalise_symbol (some "BINANCE:ETHUSDT.P")).data = false
    ∧ normalise_symbol (some (normalise_symbol (some "BINANCE:ETHUSDT.P")))
        = normalise_symbol (some "BINANCE:ETHUSDT.P") :=
  ⟨by decide,
   normalise_symbol_idempotent_unless_quote_suffix
     (some "BINANCE:ETHUSDT.P") (by decide)⟩
